import Mathlib

/-!
Shallow embedding of the ikos interprocedural value-analysis function fixpoint,
`src/analyzer/src/analysis/value/interprocedural/function_fixpoint.cpp`.

The abstract domain, the IR, the statement execution engine, the call-context
factory and the fixpoint profiler are external collaborators of that
translation unit; they are embedded as explicit parameters (operation records)
or, where the translation unit only calls into them, modelled from the spec as
noted on each definition. Effects on the progress logger, the checkers and the
call execution engine are made observable as event traces.
-/

set_option linter.unusedVariables false

namespace ar

/-- One IR statement (`ar::Statement`), identified by a numeric id standing for
its C++ object identity; `has_frontend` tells whether it carries frontend
(source-level) metadata. -/
structure Statement where
  id : Nat
  has_frontend : Bool
deriving DecidableEq

/-- A basic block (`ar::BasicBlock`): an ordered sequence of statements,
identified by a numeric id standing for its C++ object identity. -/
structure BasicBlock where
  id : Nat
  statements : List Statement
deriving DecidableEq

/-- A function body (`ar::Code`): the list of basic blocks of the control-flow
graph, and `exit_block_or_null`, which is `none` when the body has no
designated exit block. -/
structure Code where
  blocks : List BasicBlock
  exit_block_or_null : Option BasicBlock
deriving DecidableEq

/-- An IR function (`ar::Function`) owning a body. -/
structure Function where
  id : Nat
  body : Code
deriving DecidableEq

end ar

/-- Modelled from the spec: a call context is an opaque key
`(parent context, call site)`, the empty context denoting the analysis entry
point. The interning factory is external to this translation unit. -/
inductive CallContext where
  | empty : CallContext
  | derived (parent : CallContext) (call : ar.Statement) : CallContext
deriving DecidableEq

/-- The `empty()` query on a call context (`_call_context->empty()`). -/
def CallContext.isEmpty : CallContext → Bool
  | CallContext.empty => true
  | CallContext.derived _ _ => false

/-- Modelled from the spec: `CallContextFactory::get_empty()`. -/
def CallContextFactory.get_empty : CallContext :=
  CallContext.empty

/-- Modelled from the spec: `CallContextFactory::get_context(parent, call)`. -/
def CallContextFactory.get_context (parent : CallContext) (call : ar.Statement) : CallContext :=
  CallContext.derived parent call

/-- The abstract-domain interface consumed by the fixpoint: in the C++ these
are methods of the template parameter `AbstractDomain`; `x.widen_threshold_with
y t` embeds `x.widen_threshold_with(y, t)`, and similarly for the others. -/
structure AbstractDomainOps (A Th : Type) where
  bottom : A
  leq : A → A → Bool
  join_iter_with : A → A → A
  widen_with : A → A → A
  widen_threshold_with : A → A → Th → A
  narrow_with : A → A → A
  narrow_threshold_with : A → A → Th → A
  meet_with : A → A → A

/-- `WideningStrategy` is a C++ scoped enum with enumerators `Widen` and
`Join`. A scoped enum is backed by an integer type, and values outside the
declared enumerators are representable (this is what the `default:` branch of
the strategy dispatch guards), so a strategy value is embedded as its integer
code. -/
abbrev WideningStrategy := Nat

/-- Integer code of the `WideningStrategy::Widen` enumerator. -/
def WideningStrategy.Widen : WideningStrategy := 0

/-- Integer code of the `WideningStrategy::Join` enumerator. -/
def WideningStrategy.Join : WideningStrategy := 1

/-- `NarrowingStrategy` is a C++ scoped enum with enumerators `Narrow` and
`Meet`, embedded as integer codes like `WideningStrategy`. -/
abbrev NarrowingStrategy := Nat

/-- Integer code of the `NarrowingStrategy::Narrow` enumerator. -/
def NarrowingStrategy.Narrow : NarrowingStrategy := 0

/-- Integer code of the `NarrowingStrategy::Meet` enumerator. -/
def NarrowingStrategy.Meet : NarrowingStrategy := 1

/-- The fixpoint-relevant slice of the analysis options bundle (`ctx.opts`,
stored as `_opts`): precision level, number of guaranteed-join loop
iterations, widening and narrowing strategies, and the optional cap on
narrowing iterations. -/
structure AnalysisOptions where
  precision : Nat
  loop_iterations : Nat
  widening_strategy : WideningStrategy
  narrowing_strategy : NarrowingStrategy
  narrowing_iterations : Option Nat
deriving DecidableEq

/-- Modelled from the spec: a per-function fixpoint profile, queried through
`widening_hint(head)`, which optionally supplies a widening threshold for a
loop head. -/
structure FixpointProfile (Th : Type) where
  widening_hint : ar.BasicBlock → Option Th

/-- Modelled from the spec: the fixpoint profiler collaborator,
`profile(function)` returning an optional per-function profile. -/
structure FixpointProfiler (Th : Type) where
  profile : ar.Function → Option (FixpointProfile Th)

/-- The slice of the shared analysis `Context` read by this translation unit:
the options bundle and the optional fixpoint profiler
(`ctx.fixpoint_profiler`, a null pointer in C++ when absent). -/
structure Context (Th : Type) where
  opts : AnalysisOptions
  fixpoint_profiler : Option (FixpointProfiler Th)

/-- The fatal failure raised by `ikos_unreachable("unexpected strategy")` in
the `default:` branches of `extrapolate` and `refine`. -/
inductive FatalError where
  | unexpected_strategy : FatalError
deriving DecidableEq

/-- Observable effects of the fixpoint: progress-logger notifications
(`start_callee`/`end_callee`, cycle events), checker invocations
(`checker->check(stmt, inv, call_context)`, the checker named by the numeric
identity of its object), and the call execution engine's function-exit effect
(`exec_exit`). -/
inductive AnalysisEvent (A : Type) where
  | start_callee (call_context : CallContext) (function : ar.Function)
  | end_callee (call_context : CallContext) (function : ar.Function)
  | check (checker : Nat) (stmt : ar.Statement) (inv : A) (call_context : CallContext)
  | start_cycle (head : ar.BasicBlock)
  | start_cycle_iter (head : ar.BasicBlock) (iteration : Nat) (kind : Nat)
  | end_cycle (head : ar.BasicBlock)
  | exec_exit (function : ar.Function)
deriving DecidableEq

/-- Whether an event is a checker invocation. -/
def AnalysisEvent.isCheck {A : Type} : AnalysisEvent A → Bool
  | AnalysisEvent.check _ _ _ _ => true
  | _ => false

/-- Modelled from the spec: the statement-execution collaborators used by
`analyze_node`, `analyze_edge` and `run_checks` — `exec_enter`, `exec_leave`
and `exec_edge` on the statement execution engine, and the free
`transfer_function` helper — are external; each maps the engine's current
abstract value to the new one. -/
structure ExecSemantics (A : Type) where
  exec_enter : ar.BasicBlock → A → A
  exec_leave : ar.BasicBlock → A → A
  exec_edge : ar.BasicBlock → ar.BasicBlock → A → A
  transfer_function : ar.Statement → A → A

/-- The state of one `FunctionFixpoint` object: the fields of the C++ class
(without their underscore prefix) together with the state it owns through its
base class and member engines — `pre`/`post` are the invariant maps of the
`FwdFixpointIterator` base, `inv` the statement execution engine's current
abstract value, and `context_stable`/`convergence_achieved`/`check_callees`
the call execution engine's flags. -/
structure FunctionFixpoint (A Th : Type) where
  cfg : ar.Code
  function : ar.Function
  opts : AnalysisOptions
  call_context : CallContext
  profile : Option (FixpointProfile Th)
  analyzed_functions : List ar.Function
  checkers : List Nat
  inv : A
  context_stable : Bool
  convergence_achieved : Bool
  check_callees : Bool
  pre : ar.BasicBlock → Option A
  post : ar.BasicBlock → Option A

/-- The entry-point constructor (`FunctionFixpoint::FunctionFixpoint(ctx,
checkers, logger, entry_point)`): empty call context, profile looked up for
the entry point, singleton analyzed-functions set, engine seeded with
`AbstractDomain::bottom()`, `context_stable = true`,
`convergence_achieved = false`. -/
def FunctionFixpoint.entry {A Th : Type} (ops : AbstractDomainOps A Th) (ctx : Context Th)
    (checkers : List Nat) (entry_point : ar.Function) : FunctionFixpoint A Th where
  cfg := entry_point.body
  function := entry_point
  opts := ctx.opts
  call_context := CallContextFactory.get_empty
  profile :=
    match ctx.fixpoint_profiler with
    | none => none
    | some profiler => profiler.profile entry_point
  analyzed_functions := [entry_point]
  checkers := checkers
  inv := ops.bottom
  context_stable := true
  convergence_achieved := false
  check_callees := false
  pre := fun _ => none
  post := fun _ => none

/-- The child (interprocedural) constructor (`FunctionFixpoint::
FunctionFixpoint(ctx, caller, call, callee, context_stable)`): call context
derived from the caller's through the factory, profile looked up for the
callee, the caller's analyzed-functions set copied and the callee appended
(`this->_analyzed_functions.push_back(callee)`), engine seeded with bottom,
`convergence_achieved = false` and the caller-supplied `context_stable`. -/
def FunctionFixpoint.child {A Th : Type} (ops : AbstractDomainOps A Th) (ctx : Context Th)
    (caller : FunctionFixpoint A Th) (call : ar.Statement) (callee : ar.Function)
    (context_stable : Bool) : FunctionFixpoint A Th where
  cfg := callee.body
  function := callee
  opts := ctx.opts
  call_context := CallContextFactory.get_context caller.call_context call
  profile :=
    match ctx.fixpoint_profiler with
    | none => none
    | some profiler => profiler.profile callee
  analyzed_functions := caller.analyzed_functions ++ [callee]
  checkers := caller.checkers
  inv := ops.bottom
  context_stable := context_stable
  convergence_achieved := false
  check_callees := false
  pre := fun _ => none
  post := fun _ => none

/-- `FunctionFixpoint::extrapolate(head, iteration, before, after)`: plain
join while `iteration <= _opts.loop_iterations`; past the bound, dispatch on
the widening strategy — under `Widen`, one thresholded widening on exactly
iteration `loop_iterations + 1` when the profile supplies a hint for this
head, plain widening otherwise; under `Join`, plain join; any other strategy
value reaches `ikos_unreachable("unexpected strategy")`. -/
def FunctionFixpoint.extrapolate {A Th : Type} (F : FunctionFixpoint A Th)
    (ops : AbstractDomainOps A Th) (head : ar.BasicBlock) (iteration : Nat)
    (before after : A) : Except FatalError A :=
  if iteration ≤ F.opts.loop_iterations then
    Except.ok (ops.join_iter_with before after)
  else if F.opts.widening_strategy = WideningStrategy.Widen then
    if iteration = F.opts.loop_iterations + 1 then
      match F.profile with
      | some profile =>
        match profile.widening_hint head with
        | some threshold => Except.ok (ops.widen_threshold_with before after threshold)
        | none => Except.ok (ops.widen_with before after)
      | none => Except.ok (ops.widen_with before after)
    else
      Except.ok (ops.widen_with before after)
  else if F.opts.widening_strategy = WideningStrategy.Join then
    Except.ok (ops.join_iter_with before after)
  else
    Except.error FatalError.unexpected_strategy

/-- `FunctionFixpoint::refine(head, iteration, before, after)`: dispatch on
the narrowing strategy — under `Narrow`, one thresholded narrowing on exactly
iteration 1 when the profile supplies a hint for this head, plain narrowing
otherwise; under `Meet`, meet; any other strategy value reaches
`ikos_unreachable("unexpected strategy")`. -/
def FunctionFixpoint.refine {A Th : Type} (F : FunctionFixpoint A Th)
    (ops : AbstractDomainOps A Th) (head : ar.BasicBlock) (iteration : Nat)
    (before after : A) : Except FatalError A :=
  if F.opts.narrowing_strategy = NarrowingStrategy.Narrow then
    if iteration = 1 then
      match F.profile with
      | some profile =>
        match profile.widening_hint head with
        | some threshold => Except.ok (ops.narrow_threshold_with before after threshold)
        | none => Except.ok (ops.narrow_with before after)
      | none => Except.ok (ops.narrow_with before after)
    else
      Except.ok (ops.narrow_with before after)
  else if F.opts.narrowing_strategy = NarrowingStrategy.Meet then
    Except.ok (ops.meet_with before after)
  else
    Except.error FatalError.unexpected_strategy

/-- `FunctionFixpoint::is_decreasing_iterations_fixpoint(head, iteration,
before, after)`: true when the optional narrowing-iteration cap is present and
reached (`iteration >= *_opts.narrowing_iterations`), or when
`before.leq(after)`. -/
def FunctionFixpoint.is_decreasing_iterations_fixpoint {A Th : Type}
    (F : FunctionFixpoint A Th) (ops : AbstractDomainOps A Th) (head : ar.BasicBlock)
    (iteration : Nat) (before after : A) : Bool :=
  (match F.opts.narrowing_iterations with
    | some cap => decide (cap ≤ iteration)
    | none => false) || ops.leq before after

/-- `FunctionFixpoint::is_currently_analyzed(fun)`: `std::find` over
`_analyzed_functions`, i.e. a membership test. -/
def FunctionFixpoint.is_currently_analyzed {A Th : Type} (F : FunctionFixpoint A Th)
    (f : ar.Function) : Bool :=
  decide (f ∈ F.analyzed_functions)

/-- `FunctionFixpoint::run(inv)`: log `start_callee` when the call context is
non-empty, delegate to `FwdFixpointIterator::run(inv)` (the external generic
driver, modelled from the spec by the pre/post invariant maps it computes and
stores and the trace of events it emits, taken as parameters), then
`mark_convergence_achieved()` on the call execution engine, `clear_post()`,
and log `end_callee` when the call context is non-empty. -/
def FunctionFixpoint.run {A Th : Type} (F : FunctionFixpoint A Th) (inv : A)
    (driver_pre driver_post : ar.BasicBlock → Option A)
    (driver_events : List (AnalysisEvent A)) :
    FunctionFixpoint A Th × List (AnalysisEvent A) :=
  let start_events : List (AnalysisEvent A) :=
    if F.call_context.isEmpty then []
    else [AnalysisEvent.start_callee F.call_context F.function]
  let after_driver := { F with pre := driver_pre, post := driver_post }
  let converged := { after_driver with convergence_achieved := true }
  let cleared := { converged with post := fun _ => none }
  let end_events : List (AnalysisEvent A) :=
    if F.call_context.isEmpty then []
    else [AnalysisEvent.end_callee F.call_context F.function]
  (cleared, start_events ++ driver_events ++ end_events)

/-- `FunctionFixpoint::analyze_node(bb, pre)`: install `pre` in the engine,
`exec_enter(bb)`, run `transfer_function` on every statement in order,
`exec_leave(bb)`, and return the engine's value. -/
def FunctionFixpoint.analyze_node {A Th : Type} (F : FunctionFixpoint A Th)
    (sem : ExecSemantics A) (bb : ar.BasicBlock) (pre : A) : A :=
  sem.exec_leave bb
    (bb.statements.foldl (fun inv stmt => sem.transfer_function stmt inv)
      (sem.exec_enter bb pre))

/-- `FunctionFixpoint::analyze_edge(src, dest, pre)`: install `pre`,
`exec_edge(src, dest)`, and return the engine's value. -/
def FunctionFixpoint.analyze_edge {A Th : Type} (F : FunctionFixpoint A Th)
    (sem : ExecSemantics A) (src dest : ar.BasicBlock) (pre : A) : A :=
  sem.exec_edge src dest pre

/-- `FunctionFixpoint::notify_enter_cycle(head)`. -/
def FunctionFixpoint.notify_enter_cycle {A Th : Type} (F : FunctionFixpoint A Th)
    (head : ar.BasicBlock) : List (AnalysisEvent A) :=
  [AnalysisEvent.start_cycle head]

/-- `FunctionFixpoint::notify_cycle_iteration(head, iteration, kind)`. -/
def FunctionFixpoint.notify_cycle_iteration {A Th : Type} (F : FunctionFixpoint A Th)
    (head : ar.BasicBlock) (iteration : Nat) (kind : Nat) : List (AnalysisEvent A) :=
  [AnalysisEvent.start_cycle_iter head iteration kind]

/-- `FunctionFixpoint::notify_leave_cycle(head)`. -/
def FunctionFixpoint.notify_leave_cycle {A Th : Type} (F : FunctionFixpoint A Th)
    (head : ar.BasicBlock) : List (AnalysisEvent A) :=
  [AnalysisEvent.end_cycle head]

/-- `FunctionFixpoint::process_post(bb, post)`: when `bb` is the designated
exit block of the function's body, install `post` in the statement execution
engine and apply the call execution engine's function-exit effect
(`exec_exit(function)`); otherwise do nothing. -/
def FunctionFixpoint.process_post {A Th : Type} (F : FunctionFixpoint A Th)
    (bb : ar.BasicBlock) (post : A) : FunctionFixpoint A Th × List (AnalysisEvent A) :=
  if F.function.body.exit_block_or_null = some bb then
    ({ F with inv := post }, [AnalysisEvent.exec_exit F.function])
  else
    (F, [])

/-- The checker loop body of `run_checks`: when the statement carries frontend
metadata, invoke `check(stmt, inv, call_context)` on every checker, in checker
order; otherwise no invocation. -/
def FunctionFixpoint.check_statement {A Th : Type} (F : FunctionFixpoint A Th)
    (inv : A) (stmt : ar.Statement) : List (AnalysisEvent A) :=
  if stmt.has_frontend then
    F.checkers.map (fun c => AnalysisEvent.check c stmt inv F.call_context)
  else []

/-- The per-statement step of `run_checks`: emit the checker invocations for
the current engine value, then propagate through `transfer_function`. -/
def FunctionFixpoint.run_checks_stmt_step {A Th : Type} (F : FunctionFixpoint A Th)
    (sem : ExecSemantics A) (acc : A × List (AnalysisEvent A)) (stmt : ar.Statement) :
    A × List (AnalysisEvent A) :=
  (sem.transfer_function stmt acc.1, acc.2 ++ F.check_statement acc.1 stmt)

/-- The per-block step of `run_checks`: install the stored pre-invariant of
the block (`set_inv(pre(bb))`, where `pre` of the driver base class defaults
to bottom for an absent entry), `exec_enter(bb)`, walk the statements, and
`exec_leave(bb)`. -/
def FunctionFixpoint.run_checks_block {A Th : Type} (F : FunctionFixpoint A Th)
    (ops : AbstractDomainOps A Th) (sem : ExecSemantics A)
    (acc : A × List (AnalysisEvent A)) (bb : ar.BasicBlock) : A × List (AnalysisEvent A) :=
  let entered := sem.exec_enter bb ((F.pre bb).getD ops.bottom)
  let folded := bb.statements.foldl (F.run_checks_stmt_step sem) (entered, acc.2)
  (sem.exec_leave bb folded.1, folded.2)

/-- `FunctionFixpoint::run_checks()`: log `start_callee` when the call context
is non-empty, `mark_check_callees()` on the call execution engine, walk every
basic block of the cfg in order re-running the transfer functions from the
stored pre-invariants while invoking every checker on every statement that
carries frontend metadata (on the engine value before that statement's
transfer), and log `end_callee` when the call context is non-empty. -/
def FunctionFixpoint.run_checks {A Th : Type} (F : FunctionFixpoint A Th)
    (ops : AbstractDomainOps A Th) (sem : ExecSemantics A) :
    FunctionFixpoint A Th × List (AnalysisEvent A) :=
  let start_events : List (AnalysisEvent A) :=
    if F.call_context.isEmpty then []
    else [AnalysisEvent.start_callee F.call_context F.function]
  let marked := { F with check_callees := true }
  let result := F.cfg.blocks.foldl (F.run_checks_block ops sem) (F.inv, [])
  let end_events : List (AnalysisEvent A) :=
    if F.call_context.isEmpty then []
    else [AnalysisEvent.end_callee F.call_context F.function]
  ({ marked with inv := result.1 }, start_events ++ result.2 ++ end_events)

/-- The `FunctionFixpoint` states reachable through the public interface of
the translation unit: the two constructors, and the state-mutating operations
`run`, `run_checks` and `process_post`. -/
inductive ReachableFixpoint {A Th : Type} : FunctionFixpoint A Th → Prop where
  | entry (ops : AbstractDomainOps A Th) (ctx : Context Th) (checkers : List Nat)
      (entry_point : ar.Function) :
      ReachableFixpoint (FunctionFixpoint.entry ops ctx checkers entry_point)
  | child (ops : AbstractDomainOps A Th) (ctx : Context Th) (caller : FunctionFixpoint A Th)
      (call : ar.Statement) (callee : ar.Function) (context_stable : Bool) :
      ReachableFixpoint caller →
      ReachableFixpoint (FunctionFixpoint.child ops ctx caller call callee context_stable)
  | run (F : FunctionFixpoint A Th) (inv : A) (driver_pre driver_post : ar.BasicBlock → Option A)
      (driver_events : List (AnalysisEvent A)) :
      ReachableFixpoint F →
      ReachableFixpoint (F.run inv driver_pre driver_post driver_events).1
  | run_checks (F : FunctionFixpoint A Th) (ops : AbstractDomainOps A Th)
      (sem : ExecSemantics A) :
      ReachableFixpoint F →
      ReachableFixpoint (F.run_checks ops sem).1
  | process_post (F : FunctionFixpoint A Th) (bb : ar.BasicBlock) (post : A) :
      ReachableFixpoint F →
      ReachableFixpoint (F.process_post bb post).1

/-- A free term domain: every lattice operation builds a distinct syntax node,
so a result records exactly which operations the fixpoint applied. Used to
instantiate the generic development on concrete inputs. -/
inductive DomTerm where
  | base (n : Nat)
  | enter (block : Nat) (x : DomTerm)
  | leave (block : Nat) (x : DomTerm)
  | edge (src dest : Nat) (x : DomTerm)
  | step (stmt : Nat) (x : DomTerm)
  | join (x y : DomTerm)
  | widen (x y : DomTerm)
  | widenThr (x y : DomTerm) (t : Nat)
  | narrow (x y : DomTerm)
  | narrowThr (x y : DomTerm) (t : Nat)
  | meet (x y : DomTerm)
deriving DecidableEq

/-- The free term domain as an abstract-domain instance (with `Nat`
thresholds); `leq` is syntactic equality. -/
def opsD : AbstractDomainOps DomTerm Nat where
  bottom := DomTerm.base 0
  leq := fun x y => x == y
  join_iter_with := DomTerm.join
  widen_with := DomTerm.widen
  widen_threshold_with := DomTerm.widenThr
  narrow_with := DomTerm.narrow
  narrow_threshold_with := DomTerm.narrowThr
  meet_with := DomTerm.meet

/-- Statement execution over the free term domain: every engine call builds a
distinct syntax node. -/
def semD : ExecSemantics DomTerm where
  exec_enter := fun bb x => DomTerm.enter bb.id x
  exec_leave := fun bb x => DomTerm.leave bb.id x
  exec_edge := fun src dest x => DomTerm.edge src.id dest.id x
  transfer_function := fun stmt x => DomTerm.step stmt.id x

/-- Sample statement with frontend metadata. -/
def s1D : ar.Statement := { id := 1, has_frontend := true }

/-- Sample statement without frontend metadata. -/
def s2D : ar.Statement := { id := 2, has_frontend := false }

/-- Sample statement with frontend metadata. -/
def s3D : ar.Statement := { id := 3, has_frontend := true }

/-- Sample basic block holding the three sample statements. -/
def bbD : ar.BasicBlock := { id := 0, statements := [s1D, s2D, s3D] }

/-- Sample body: one block, which is also the designated exit block. -/
def codeD : ar.Code := { blocks := [bbD], exit_block_or_null := some bbD }

/-- Sample entry-point function. -/
def mainD : ar.Function := { id := 0, body := codeD }

/-- Sample callee with an empty body and no exit block. -/
def gD : ar.Function := { id := 1, body := { blocks := [], exit_block_or_null := none } }

/-- Sample function never placed on the analysis chain. -/
def hD : ar.Function := { id := 2, body := { blocks := [], exit_block_or_null := none } }

/-- Sample profile: a widening hint of 42 for block 0, none elsewhere. -/
def profD : FixpointProfile Nat :=
  { widening_hint := fun bb => if bb.id = 0 then some 42 else none }

/-- Sample profiler: a profile for function 0 only. -/
def profilerD : FixpointProfiler Nat :=
  { profile := fun f => if f.id = 0 then some profD else none }

/-- Sample options: two guaranteed-join iterations, `Widen`/`Narrow`
strategies, narrowing capped at 3 iterations. -/
def optsD : AnalysisOptions where
  precision := 2
  loop_iterations := 2
  widening_strategy := WideningStrategy.Widen
  narrowing_strategy := NarrowingStrategy.Narrow
  narrowing_iterations := some 3

/-- Sample analysis context bundling `optsD` and `profilerD`. -/
def ctxD : Context Nat := { opts := optsD, fixpoint_profiler := some profilerD }

/-- Entry-point fixpoint instance for `mainD` with two checkers. -/
def entryD : FunctionFixpoint DomTerm Nat := FunctionFixpoint.entry opsD ctxD [0, 1] mainD

/-- Child fixpoint instance for callee `gD` reached from `entryD` at `s1D`. -/
def childD : FunctionFixpoint DomTerm Nat := FunctionFixpoint.child opsD ctxD entryD s1D gD true

/-- C1: for every loop head and ascending iteration, `extrapolate` returns
`before` joined (via `join_iter_with`) with `after` whenever
`iteration <= loop_iterations`; strictly beyond that bound, under the `Widen`
strategy it returns `before` widened with `after`, except that on exactly
iteration `loop_iterations + 1`, when a profile exists and supplies a widening
hint for this head, it returns `before` thresholded-widened with `after` using
that hint; under the `Join` strategy it always returns the join. -/
theorem extrapolate_policy {A Th : Type} (ops : AbstractDomainOps A Th)
    (F : FunctionFixpoint A Th) (head : ar.BasicBlock) (iteration : Nat) (before after : A) :
    (iteration ≤ F.opts.loop_iterations →
      F.extrapolate ops head iteration before after
        = Except.ok (ops.join_iter_with before after)) ∧
    (F.opts.loop_iterations < iteration →
      F.opts.widening_strategy = WideningStrategy.Widen →
      ((∀ profile threshold, iteration = F.opts.loop_iterations + 1 →
          F.profile = some profile → profile.widening_hint head = some threshold →
          F.extrapolate ops head iteration before after
            = Except.ok (ops.widen_threshold_with before after threshold)) ∧
       (¬ (iteration = F.opts.loop_iterations + 1 ∧ ∃ profile threshold,
             F.profile = some profile ∧ profile.widening_hint head = some threshold) →
          F.extrapolate ops head iteration before after
            = Except.ok (ops.widen_with before after)))) ∧
    (F.opts.loop_iterations < iteration →
      F.opts.widening_strategy = WideningStrategy.Join →
      F.extrapolate ops head iteration before after
        = Except.ok (ops.join_iter_with before after)) := by
  unfold FunctionFixpoint.extrapolate
  refine ⟨fun hle => by simp [hle], ?_, ?_⟩
  · intro hlt hw
    have hnle : ¬ iteration ≤ F.opts.loop_iterations := Nat.not_le.mpr hlt
    constructor
    · intro profile threshold h1 hp hh
      simp [hnle, hw, h1, hp, hh]
    · intro hne
      by_cases h1 : iteration = F.opts.loop_iterations + 1
      · cases hp : F.profile with
        | none => simp [hnle, hw, h1, hp]
        | some profile =>
          cases hh : profile.widening_hint head with
          | none => simp [hnle, hw, h1, hp, hh]
          | some threshold => exact absurd ⟨h1, profile, threshold, hp, hh⟩ hne
      · simp [hnle, hw, h1]
  · intro hlt hj
    have hnle : ¬ iteration ≤ F.opts.loop_iterations := Nat.not_le.mpr hlt
    simp [hnle, hj, WideningStrategy.Widen, WideningStrategy.Join]

/-- Witness for C1: on the sample entry-point instance (loop bound 2, `Widen`
strategy, profile hinting 42 at block 0), iteration 3 applies one thresholded
widening. -/
theorem extrapolate_policy_witness :
    entryD.opts.loop_iterations < 3 ∧
    entryD.opts.widening_strategy = WideningStrategy.Widen ∧
    entryD.extrapolate opsD bbD 3 (DomTerm.base 1) (DomTerm.base 2)
      = Except.ok (opsD.widen_threshold_with (DomTerm.base 1) (DomTerm.base 2) 42) :=
  ⟨by decide, by decide,
    ((extrapolate_policy opsD entryD bbD 3 (DomTerm.base 1) (DomTerm.base 2)).2.1
      (by decide) (by decide)).1 profD 42 (by decide) rfl rfl⟩

/-- C2: for every loop head and descending iteration, `refine` under the
`Narrow` strategy returns `before` thresholded-narrowed with `after` (using
the profile's widening hint for this head) exactly when `iteration = 1`, a
profile exists and a hint exists for this head, and otherwise returns `before`
plainly narrowed with `after`; under the `Meet` strategy it always returns
`before` met with `after`. -/
theorem refine_policy {A Th : Type} (ops : AbstractDomainOps A Th)
    (F : FunctionFixpoint A Th) (head : ar.BasicBlock) (iteration : Nat) (before after : A) :
    (F.opts.narrowing_strategy = NarrowingStrategy.Narrow →
      ((∀ profile threshold, iteration = 1 →
          F.profile = some profile → profile.widening_hint head = some threshold →
          F.refine ops head iteration before after
            = Except.ok (ops.narrow_threshold_with before after threshold)) ∧
       (¬ (iteration = 1 ∧ ∃ profile threshold,
             F.profile = some profile ∧ profile.widening_hint head = some threshold) →
          F.refine ops head iteration before after
            = Except.ok (ops.narrow_with before after)))) ∧
    (F.opts.narrowing_strategy = NarrowingStrategy.Meet →
      F.refine ops head iteration before after
        = Except.ok (ops.meet_with before after)) := by
  unfold FunctionFixpoint.refine
  constructor
  · intro hn
    constructor
    · intro profile threshold h1 hp hh
      simp [hn, h1, hp, hh]
    · intro hne
      by_cases h1 : iteration = 1
      · cases hp : F.profile with
        | none => simp [hn, h1, hp]
        | some profile =>
          cases hh : profile.widening_hint head with
          | none => simp [hn, h1, hp, hh]
          | some threshold => exact absurd ⟨h1, profile, threshold, hp, hh⟩ hne
      · simp [hn, h1]
  · intro hm
    simp [hm, NarrowingStrategy.Narrow, NarrowingStrategy.Meet]

/-- Witness for C2: on the sample entry-point instance (`Narrow` strategy,
profile hinting 42 at block 0), descending iteration 1 applies one thresholded
narrowing. -/
theorem refine_policy_witness :
    entryD.opts.narrowing_strategy = NarrowingStrategy.Narrow ∧
    entryD.refine opsD bbD 1 (DomTerm.base 1) (DomTerm.base 2)
      = Except.ok (opsD.narrow_threshold_with (DomTerm.base 1) (DomTerm.base 2) 42) :=
  ⟨by decide,
    ((refine_policy opsD entryD bbD 1 (DomTerm.base 1) (DomTerm.base 2)).1
      (by decide)).1 profD 42 rfl rfl rfl⟩

/-- C3: `is_decreasing_iterations_fixpoint` returns true exactly when a
narrowing-iteration cap is configured and `iteration` has reached it, or
`before.leq(after)` holds; in particular with `narrowing_iterations = cap` it
returns true at iteration `cap` regardless of `before` and `after`. -/
theorem is_decreasing_iterations_fixpoint_policy {A Th : Type}
    (ops : AbstractDomainOps A Th) (F : FunctionFixpoint A Th) (head : ar.BasicBlock)
    (iteration : Nat) (before after : A) :
    (F.is_decreasing_iterations_fixpoint ops head iteration before after = true ↔
      ((∃ cap, F.opts.narrowing_iterations = some cap ∧ cap ≤ iteration) ∨
        ops.leq before after = true)) ∧
    (∀ cap, F.opts.narrowing_iterations = some cap →
      F.is_decreasing_iterations_fixpoint ops head cap before after = true) := by
  constructor
  · unfold FunctionFixpoint.is_decreasing_iterations_fixpoint
    cases h : F.opts.narrowing_iterations with
    | none => simp [h]
    | some cap => simp [h]
  · intro cap hcap
    unfold FunctionFixpoint.is_decreasing_iterations_fixpoint
    simp [hcap]

/-- Witness for C3: with the cap configured at 3, the sample instance stops
descending at iteration 3 even though the two states are unrelated. -/
theorem is_decreasing_iterations_fixpoint_policy_witness :
    entryD.opts.narrowing_iterations = some 3 ∧
    entryD.is_decreasing_iterations_fixpoint opsD bbD 3 (DomTerm.base 1) (DomTerm.base 2) = true :=
  ⟨by decide,
    (is_decreasing_iterations_fixpoint_policy opsD entryD bbD 3 (DomTerm.base 1)
      (DomTerm.base 2)).2 3 (by decide)⟩

/-- C8: when the configured widening strategy is `Widen` or `Join` and the
configured narrowing strategy is `Narrow` or `Meet`, the fatal
`unexpected strategy` branch of `extrapolate` and of `refine` is unreachable;
a strategy value outside the enumerators reaching either dispatch (past the
guaranteed-join phase for `extrapolate`) is the fatal failure. -/
theorem strategy_dispatch_total {A Th : Type} (ops : AbstractDomainOps A Th)
    (F : FunctionFixpoint A Th) (head : ar.BasicBlock) (iteration : Nat) (before after : A) :
    ((F.opts.widening_strategy = WideningStrategy.Widen ∨
      F.opts.widening_strategy = WideningStrategy.Join) →
      F.extrapolate ops head iteration before after
        ≠ Except.error FatalError.unexpected_strategy) ∧
    ((F.opts.narrowing_strategy = NarrowingStrategy.Narrow ∨
      F.opts.narrowing_strategy = NarrowingStrategy.Meet) →
      F.refine ops head iteration before after
        ≠ Except.error FatalError.unexpected_strategy) ∧
    (F.opts.widening_strategy ≠ WideningStrategy.Widen →
      F.opts.widening_strategy ≠ WideningStrategy.Join →
      F.opts.loop_iterations < iteration →
      F.extrapolate ops head iteration before after
        = Except.error FatalError.unexpected_strategy) ∧
    (F.opts.narrowing_strategy ≠ NarrowingStrategy.Narrow →
      F.opts.narrowing_strategy ≠ NarrowingStrategy.Meet →
      F.refine ops head iteration before after
        = Except.error FatalError.unexpected_strategy) := by
  refine ⟨?_, ?_, ?_, ?_⟩
  · intro h
    unfold FunctionFixpoint.extrapolate
    repeat' split
    all_goals simp_all
  · intro h
    unfold FunctionFixpoint.refine
    repeat' split
    all_goals simp_all
  · intro hw hj hlt
    have hnle : ¬ iteration ≤ F.opts.loop_iterations := Nat.not_le.mpr hlt
    unfold FunctionFixpoint.extrapolate
    simp [hnle, hw, hj]
  · intro hn hm
    unfold FunctionFixpoint.refine
    simp [hn, hm]

/-- Witness for C8: the sample options use `Widen` and `Narrow`, so neither
dispatch on the sample instance is fatal; flipping the widening strategy to
the out-of-range code 7 makes iteration 3 fatal. -/
theorem strategy_dispatch_total_witness :
    (entryD.extrapolate opsD bbD 3 (DomTerm.base 1) (DomTerm.base 2)
      ≠ Except.error FatalError.unexpected_strategy) ∧
    ({ entryD with opts := { optsD with widening_strategy := 7 } }.extrapolate opsD bbD 3
        (DomTerm.base 1) (DomTerm.base 2)
      = Except.error FatalError.unexpected_strategy) :=
  ⟨(strategy_dispatch_total opsD entryD bbD 3 (DomTerm.base 1) (DomTerm.base 2)).1
      (Or.inl (by decide)),
   (strategy_dispatch_total opsD { entryD with opts := { optsD with widening_strategy := 7 } }
      bbD 3 (DomTerm.base 1) (DomTerm.base 2)).2.2.1 (by decide) (by decide) (by decide)⟩

/-- C4: `run` logs callee start before the driver's traversal and callee end
after it exactly when the call context is non-empty, marks the call execution
engine's `convergence_achieved` flag, discards every stored per-block
post-invariant while keeping the pre-invariants, and adds no checker
invocation beyond those of the (checker-free) driver traversal. -/
theorem run_contract {A Th : Type} (F : FunctionFixpoint A Th) (inv : A)
    (driver_pre driver_post : ar.BasicBlock → Option A)
    (driver_events : List (AnalysisEvent A)) :
    (F.run inv driver_pre driver_post driver_events).2
      = (if F.call_context.isEmpty then []
          else [AnalysisEvent.start_callee F.call_context F.function])
        ++ driver_events
        ++ (if F.call_context.isEmpty then []
            else [AnalysisEvent.end_callee F.call_context F.function]) ∧
    (F.run inv driver_pre driver_post driver_events).1.convergence_achieved = true ∧
    (F.run inv driver_pre driver_post driver_events).1.post = (fun _ => none) ∧
    (F.run inv driver_pre driver_post driver_events).1.pre = driver_pre ∧
    (F.run inv driver_pre driver_post driver_events).2.filter (fun e => e.isCheck)
      = driver_events.filter (fun e => e.isCheck) := by
  unfold FunctionFixpoint.run
  refine ⟨rfl, rfl, rfl, rfl, ?_⟩
  cases h : F.call_context.isEmpty <;>
    simp [h, AnalysisEvent.isCheck]

/-- C6: a child built from a caller, a call statement and a callee derives its
call context through the factory from `(caller.call_context, call)`, and its
analyzed-functions set is the caller's with the callee appended (the caller's
own set is untouched). -/
theorem child_construction {A Th : Type} (ops : AbstractDomainOps A Th) (ctx : Context Th)
    (caller : FunctionFixpoint A Th) (call : ar.Statement) (callee : ar.Function)
    (context_stable : Bool) :
    (FunctionFixpoint.child ops ctx caller call callee context_stable).call_context
      = CallContextFactory.get_context caller.call_context call ∧
    (FunctionFixpoint.child ops ctx caller call callee context_stable).analyzed_functions
      = caller.analyzed_functions ++ [callee] :=
  ⟨rfl, rfl⟩

/-- C7: `is_currently_analyzed f` holds exactly when `f` belongs to the
analyzed-functions set; hence a child answers true for its callee and for any
ancestor already on the caller's chain, and false for a function on neither. -/
theorem is_currently_analyzed_policy {A Th : Type} (ops : AbstractDomainOps A Th)
    (ctx : Context Th) (caller : FunctionFixpoint A Th) (call : ar.Statement)
    (callee : ar.Function) (context_stable : Bool) (f : ar.Function) :
    (∀ (G : FunctionFixpoint A Th) (g : ar.Function),
      G.is_currently_analyzed g = true ↔ g ∈ G.analyzed_functions) ∧
    (FunctionFixpoint.child ops ctx caller call callee
        context_stable).is_currently_analyzed callee = true ∧
    (f ∈ caller.analyzed_functions →
      (FunctionFixpoint.child ops ctx caller call callee
          context_stable).is_currently_analyzed f = true) ∧
    (f ∉ caller.analyzed_functions → f ≠ callee →
      (FunctionFixpoint.child ops ctx caller call callee
          context_stable).is_currently_analyzed f = false) := by
  have hmem : ∀ (G : FunctionFixpoint A Th) (g : ar.Function),
      G.is_currently_analyzed g = true ↔ g ∈ G.analyzed_functions := by
    intro G g
    unfold FunctionFixpoint.is_currently_analyzed
    exact decide_eq_true_iff
  refine ⟨hmem, ?_, ?_, ?_⟩
  · exact (hmem _ _).mpr (by simp [FunctionFixpoint.child])
  · intro hf
    exact (hmem _ _).mpr (by simp [FunctionFixpoint.child, hf])
  · intro hf hne
    have : ¬ f ∈ (FunctionFixpoint.child ops ctx caller call callee
        context_stable).analyzed_functions := by
      simp [FunctionFixpoint.child, hf, hne]
    unfold FunctionFixpoint.is_currently_analyzed
    exact decide_eq_false this

/-- Witness for C7: the child for callee `gD` reached from `entryD` answers
true for `gD` and for the ancestor `mainD`, and false for the unrelated
`hD`. -/
theorem is_currently_analyzed_policy_witness :
    childD.is_currently_analyzed gD = true ∧
    childD.is_currently_analyzed mainD = true ∧
    childD.is_currently_analyzed hD = false :=
  ⟨(is_currently_analyzed_policy opsD ctxD entryD s1D gD true hD).2.1,
   (is_currently_analyzed_policy opsD ctxD entryD s1D gD true mainD).2.2.1 (by decide),
   (is_currently_analyzed_policy opsD ctxD entryD s1D gD true hD).2.2.2 (by decide) (by decide)⟩

/-- C9: every reachable `FunctionFixpoint` carries its own function in its
analyzed-functions set — the entry constructor starts from the singleton, the
child constructor appends the callee to the copied set, and no operation
removes elements — so `is_currently_analyzed` answers true on the instance's
own function. -/
theorem reachable_own_function_analyzed {A Th : Type} (F : FunctionFixpoint A Th)
    (h : ReachableFixpoint F) : F.is_currently_analyzed F.function = true := by
  have hmem : F.function ∈ F.analyzed_functions := by
    induction h with
    | entry ops ctx checkers entry_point => simp [FunctionFixpoint.entry]
    | child ops ctx caller call callee context_stable hc ih => simp [FunctionFixpoint.child]
    | run F inv driver_pre driver_post driver_events hr ih =>
      simpa [FunctionFixpoint.run] using ih
    | run_checks F ops sem hr ih =>
      simpa [FunctionFixpoint.run_checks] using ih
    | process_post F bb post hr ih =>
      unfold FunctionFixpoint.process_post
      split <;> simpa using ih
  unfold FunctionFixpoint.is_currently_analyzed
  exact decide_eq_true hmem

/-- Witness for C9: the sample entry-point instance reports itself as
currently analyzed. -/
theorem reachable_own_function_analyzed_witness :
    entryD.is_currently_analyzed entryD.function = true :=
  reachable_own_function_analyzed entryD (ReachableFixpoint.entry opsD ctxD [0, 1] mainD)

/-- C10: for a block that is not the designated exit block of the function's
body — in particular for every block when `exit_block_or_null` is `none` —
`process_post` does nothing: the state (engine invariant included) is
unchanged and no function-exit effect is applied. -/
theorem process_post_non_exit {A Th : Type} (F : FunctionFixpoint A Th)
    (bb : ar.BasicBlock) (post : A)
    (h : F.function.body.exit_block_or_null ≠ some bb) :
    F.process_post bb post = (F, []) := by
  unfold FunctionFixpoint.process_post
  simp [h]

/-- Witness for C10: the child instance analyzes `gD`, whose body has no exit
block, so `process_post` on `bbD` leaves it untouched and emits nothing. -/
theorem process_post_non_exit_witness :
    childD.process_post bbD (DomTerm.base 5) = (childD, []) :=
  process_post_non_exit childD bbD (DomTerm.base 5) (by decide)

/-- Helper: an event emitted by the checker loop for one statement names a
checker of the instance, that statement (which then carries frontend
metadata), the engine value it was given, and the instance's call context. -/
theorem check_statement_mem {A Th : Type} (F : FunctionFixpoint A Th) (inv : A)
    (stmt : ar.Statement) (e : AnalysisEvent A) (he : e ∈ F.check_statement inv stmt) :
    stmt.has_frontend = true ∧
      ∃ c, c ∈ F.checkers ∧ e = AnalysisEvent.check c stmt inv F.call_context := by
  cases h : stmt.has_frontend with
  | false => simp [FunctionFixpoint.check_statement, h] at he
  | true =>
    simp only [FunctionFixpoint.check_statement, h, if_pos] at he
    obtain ⟨c, hc, rfl⟩ := List.mem_map.mp he
    exact ⟨rfl, c, hc, rfl⟩

/-- Helper: any event produced by the statement walk of `run_checks` beyond
the accumulator's events is a checker invocation on a frontend statement of
the walked list, under the instance's call context. -/
theorem run_checks_stmt_fold_mem {A Th : Type} (F : FunctionFixpoint A Th)
    (sem : ExecSemantics A) (stmts : List ar.Statement) :
    ∀ (acc : A × List (AnalysisEvent A)) (e : AnalysisEvent A),
      e ∈ (stmts.foldl (F.run_checks_stmt_step sem) acc).2 →
      e ∈ acc.2 ∨ ∃ stmt, stmt ∈ stmts ∧ stmt.has_frontend = true ∧
        ∃ c, c ∈ F.checkers ∧ ∃ inv, e = AnalysisEvent.check c stmt inv F.call_context := by
  induction stmts with
  | nil => exact fun acc e he => Or.inl he
  | cons s rest ih =>
    intro acc e he
    rw [List.foldl_cons] at he
    rcases ih _ e he with h | h
    · simp only [FunctionFixpoint.run_checks_stmt_step] at h
      rcases List.mem_append.mp h with h2 | h2
      · exact Or.inl h2
      · obtain ⟨hf, c, hc, rfl⟩ := check_statement_mem F acc.1 s e h2
        exact Or.inr ⟨s, List.mem_cons_self s rest, hf, c, hc, acc.1, rfl⟩
    · obtain ⟨stmt, hs, hrest⟩ := h
      exact Or.inr ⟨stmt, List.mem_cons_of_mem s hs, hrest⟩

/-- Helper: any event produced by the block walk of `run_checks` beyond the
accumulator's events is a checker invocation on a frontend statement of one of
the walked blocks, under the instance's call context. -/
theorem run_checks_block_fold_mem {A Th : Type} (F : FunctionFixpoint A Th)
    (ops : AbstractDomainOps A Th) (sem : ExecSemantics A) (blocks : List ar.BasicBlock) :
    ∀ (acc : A × List (AnalysisEvent A)) (e : AnalysisEvent A),
      e ∈ (blocks.foldl (F.run_checks_block ops sem) acc).2 →
      e ∈ acc.2 ∨ ∃ blk, blk ∈ blocks ∧ ∃ stmt, stmt ∈ blk.statements ∧
        stmt.has_frontend = true ∧
        ∃ c, c ∈ F.checkers ∧ ∃ inv, e = AnalysisEvent.check c stmt inv F.call_context := by
  induction blocks with
  | nil => exact fun acc e he => Or.inl he
  | cons b rest ih =>
    intro acc e he
    rw [List.foldl_cons] at he
    rcases ih _ e he with h | h
    · simp only [FunctionFixpoint.run_checks_block] at h
      rcases run_checks_stmt_fold_mem F sem b.statements _ e h with h2 | h2
      · exact Or.inl h2
      · obtain ⟨stmt, hs, hrest⟩ := h2
        exact Or.inr ⟨b, List.mem_cons_self b rest, stmt, hs, hrest⟩
    · obtain ⟨blk, hb, hrest⟩ := h
      exact Or.inr ⟨blk, List.mem_cons_of_mem b hb, hrest⟩

/-- C5: `run_checks` walks the blocks in per-block statement order from the
stored pre-invariants; for a block with statements `[s1, s2, s3]` of which
only `s1` and `s3` carry frontend metadata, its trace is exactly one
invocation per checker for `s1` then one per checker for `s3`, each on the
engine value immediately preceding that statement's transfer, surrounded by
callee start/end logging exactly when the call context is non-empty; and in
general every checker invocation it ever emits names a checker of the
instance, a frontend-carrying statement of a walked block, and the instance's
call context. -/
theorem run_checks_contract {A Th : Type} (ops : AbstractDomainOps A Th)
    (sem : ExecSemantics A) (F : FunctionFixpoint A Th)
    (bb : ar.BasicBlock) (s1 s2 s3 : ar.Statement) (p0 : A)
    (hblocks : F.cfg.blocks = [bb])
    (hstmts : bb.statements = [s1, s2, s3])
    (h1 : s1.has_frontend = true) (h2 : s2.has_frontend = false)
    (h3 : s3.has_frontend = true)
    (hpre : (F.pre bb).getD ops.bottom = p0) :
    ((F.run_checks ops sem).2
      = (if F.call_context.isEmpty then []
          else [AnalysisEvent.start_callee F.call_context F.function])
        ++ (F.checkers.map (fun c =>
              AnalysisEvent.check c s1 (sem.exec_enter bb p0) F.call_context)
            ++ F.checkers.map (fun c =>
              AnalysisEvent.check c s3
                (sem.transfer_function s2 (sem.transfer_function s1 (sem.exec_enter bb p0)))
                F.call_context))
        ++ (if F.call_context.isEmpty then []
            else [AnalysisEvent.end_callee F.call_context F.function])) ∧
    (∀ (G : FunctionFixpoint A Th) (e : AnalysisEvent A),
      e ∈ (G.run_checks ops sem).2 → e.isCheck = true →
      ∃ blk, blk ∈ G.cfg.blocks ∧ ∃ stmt, stmt ∈ blk.statements ∧
        stmt.has_frontend = true ∧
        ∃ c, c ∈ G.checkers ∧ ∃ inv, e = AnalysisEvent.check c stmt inv G.call_context) := by
  constructor
  · simp [FunctionFixpoint.run_checks, FunctionFixpoint.run_checks_block,
      FunctionFixpoint.run_checks_stmt_step, FunctionFixpoint.check_statement,
      hblocks, hstmts, h1, h2, h3, hpre]
  · intro G e he hc
    simp only [FunctionFixpoint.run_checks] at he
    rcases List.mem_append.mp he with hsm | hend
    · rcases List.mem_append.mp hsm with hstart | hmid
      · cases hE : G.call_context.isEmpty with
        | true => rw [hE] at hstart; simp at hstart
        | false =>
          rw [hE] at hstart
          simp at hstart
          subst hstart
          simp [AnalysisEvent.isCheck] at hc
      · rcases run_checks_block_fold_mem G ops sem G.cfg.blocks (G.inv, []) e hmid with h | h
        · simp at h
        · exact h
    · cases hE : G.call_context.isEmpty with
      | true => rw [hE] at hend; simp at hend
      | false =>
        rw [hE] at hend
        simp at hend
        subst hend
        simp [AnalysisEvent.isCheck] at hc

/-- Witness for C5: on the sample entry-point instance (one block with
statements `s1D`, `s2D`, `s3D`, frontend metadata on the first and third only,
two checkers, empty call context), the check pass emits exactly the four
expected checker invocations. -/
theorem run_checks_contract_witness :
    (entryD.run_checks opsD semD).2
      = (if entryD.call_context.isEmpty then []
          else [AnalysisEvent.start_callee entryD.call_context entryD.function])
        ++ (entryD.checkers.map (fun c =>
              AnalysisEvent.check c s1D (semD.exec_enter bbD (DomTerm.base 0))
                entryD.call_context)
            ++ entryD.checkers.map (fun c =>
              AnalysisEvent.check c s3D
                (semD.transfer_function s2D (semD.transfer_function s1D
                  (semD.exec_enter bbD (DomTerm.base 0)))) entryD.call_context))
        ++ (if entryD.call_context.isEmpty then []
            else [AnalysisEvent.end_callee entryD.call_context entryD.function]) :=
  (run_checks_contract opsD semD entryD bbD s1D s2D s3D (DomTerm.base 0)
    rfl rfl rfl rfl rfl rfl).1
